import Mathlib

/-!
Verification of the `simplehttp` TCP server core of sys-apps-go/gorouter.

Shallow embedding of `src/tcprouter/server.go` (the `simplehttp` package:
`parseRequest`, `handleConnection`, `NewServer`, `Server.Start`, the worker
job queue) and `src/tcprouter/response.go` (`ResponseWriter.Write`).

Byte streams are modelled as `List Char` (the Go code works line-wise on
strings decoded from the connection).  Go's buffered reader position is the
still-unread suffix of the stream.  The Go map `map[string]string` is
modelled as a duplicate-free association list with overwrite-on-insert,
observationally equal to the Go map under lookup.
-/

/-- Character strings / byte streams, as read from the connection. -/
abbrev Str := List Char

/-- Go `unicode.IsSpace`: the White_Space code points
(`\t \n \v \f \r space`, NEL, NBSP, OGHAM, U+2000-U+200A, LS, PS, NNBSP,
MMSP, IDSP). -/
def goIsSpace (c : Char) : Bool :=
  let n := c.toNat
  n == 0x09 || n == 0x0a || n == 0x0b || n == 0x0c || n == 0x0d || n == 0x20 ||
  n == 0x85 || n == 0xa0 || n == 0x1680 ||
  (decide (0x2000 ≤ n) && decide (n ≤ 0x200a)) || n == 0x2028 || n == 0x2029 ||
  n == 0x202f || n == 0x205f || n == 0x3000

/-- Go `strings.TrimSpace`, left part: drop leading white space. -/
def goTrimLeft (s : Str) : Str := s.dropWhile goIsSpace

/-- Go `strings.TrimSpace`, right part: drop trailing white space. -/
def goTrimRight (s : Str) : Str := (s.reverse.dropWhile goIsSpace).reverse

/-- Go `strings.TrimSpace`: drop leading and trailing white space. -/
def goTrimSpace (s : Str) : Str := goTrimLeft (goTrimRight s)

/-- Go `strings.Split(s, sep)` for a one-character separator: split around
every occurrence of `sep`; the empty string yields one empty field. -/
def goSplit (sep : Char) (s : Str) : List Str := s.splitOn sep

/-- Go `strings.SplitN(s, ":", 2)` for a one-character separator, in
option form: `none` when the separator does not occur (Go returns the
one-element slice `[s]`, length 1), otherwise the parts before and after
the first occurrence (Go returns a length-2 slice). -/
def goSplitFirst (sep : Char) : Str → Option (Str × Str)
  | [] => none
  | c :: cs =>
    if c = sep then some ([], cs)
    else (goSplitFirst sep cs).map (fun p => (c :: p.1, p.2))

/-- Go `bufio.Reader.ReadString('\n')`: read up to and including the first
newline, returning the line (newline included) and the unread rest.
`none` models the error case: the stream ends before a newline is found
(the Go call returns the partial data together with `io.EOF`, and
`parseRequest` discards the data and propagates the error). -/
def readLine : Str → Option (Str × Str)
  | [] => none
  | c :: cs =>
    if c = '\n' then some (['\n'], cs)
    else (readLine cs).map (fun p => (c :: p.1, p.2))

/-- Header maps (`map[string]string` in Go): duplicate-free association
lists. -/
abbrev HeaderMap := List (Str × Str)

/-- Go map assignment `m[k] = v`: overwrite any existing binding of `k`. -/
def mapInsert (m : HeaderMap) (k v : Str) : HeaderMap :=
  (k, v) :: m.filter (fun p => !(p.1 == k))

/-- Go map lookup `m[k]`. -/
def mapLookup (m : HeaderMap) (k : Str) : Option Str :=
  (m.find? (fun p => p.1 == k)).map (fun p => p.2)

/-- A `net.Conn`: an identity plus the write side of the socket, which
takes a byte sequence and returns the count written and an optional
error, as determined by the network environment. -/
structure Conn where
  id : Nat
  write : List Nat → Nat × Option Nat

/-- `simplehttp.Request` (src/tcprouter/server.go): method token, target
token, header map, the owning connection and the shared buffered reader.
The `Reader` field is modelled by `Rest`: the still-unread suffix of the
connection's byte stream after parsing. -/
structure Request where
  Method : Str
  URI : Str
  Headers : HeaderMap
  Conn : Conn
  Rest : Str

/-- The errors `parseRequest` can return: a read error from the buffered
reader (`io.EOF` / stream closed before a full line), or the
`fmt.Errorf("malformed request line")` value. -/
inductive ParseError where
  | streamClosed
  | malformedRequestLine
deriving DecidableEq

/-- The header-reading loop of `parseRequest`: repeatedly `ReadString('\n')`,
trim, stop at the empty line, split on the first colon (skipping lines
without one), and assign the trimmed name/value into the map.  `fuel`
bounds the number of iterations; since every successful `readLine`
consumes at least one character, `input.length + 1` fuel is never
exhausted, so the wrapper below is exactly the unbounded Go loop. -/
def parseHeadersF : Nat → Str → HeaderMap → Option (HeaderMap × Str)
  | 0, _, _ => none
  | fuel + 1, input, headers =>
    match readLine input with
    | none => none
    | some (line, rest) =>
      let tl := goTrimSpace line
      if tl = [] then some (headers, rest)
      else
        match goSplitFirst ':' tl with
        | none => parseHeadersF fuel rest headers
        | some (n, v) =>
            parseHeadersF fuel rest (mapInsert headers (goTrimSpace n) (goTrimSpace v))

/-- `simplehttp.parseRequest` (src/tcprouter/server.go): read the request
line, trim it, split on single spaces, require at least 3 tokens, take
`parts[0]`/`parts[1]` as method and target, then run the header loop to
the empty terminator line. -/
def parseRequest (input : Str) (conn : Conn) : Except ParseError Request :=
  match readLine input with
  | none => Except.error ParseError.streamClosed
  | some (line0, rest) =>
    let line := goTrimSpace line0
    let parts := goSplit ' ' line
    if parts.length < 3 then Except.error ParseError.malformedRequestLine
    else
      match parseHeadersF (rest.length + 1) rest [] with
      | none => Except.error ParseError.streamClosed
      | some (headers, rest2) =>
        Except.ok { Method := parts.getD 0 [], URI := parts.getD 1 [],
                    Headers := headers, Conn := conn, Rest := rest2 }

/-- Observable events of one `handleConnection` read loop: a request being
sent into the job queue, an error being logged, the deferred
`conn.Close()` running when the loop returns. -/
inductive ConnEvent where
  | enqueue (r : Request)
  | logError (e : ParseError)
  | closeConn

/-- A successfully parsed request occupies a strictly shorter unread
stream: the header loop always consumes at least the terminator line. -/
theorem readLine_length {input line rest : Str} :
    readLine input = some (line, rest) → rest.length < input.length := by
  induction input generalizing line rest with
  | nil => intro h; simp [readLine] at h
  | cons c cs ih =>
    intro h
    simp only [readLine] at h
    split at h
    · simp only [Option.some.injEq, Prod.mk.injEq] at h
      simp [← h.2]
    · cases hr : readLine cs with
      | none => rw [hr] at h; simp at h
      | some p =>
        rw [hr] at h
        simp at h
        have := ih (show readLine cs = some (p.1, p.2) by rw [hr])
        rw [← h.2]
        simp only [List.length_cons]
        omega

theorem parseHeadersF_length {fuel : Nat} {input : Str} {acc hs : HeaderMap}
    {rest2 : Str} :
    parseHeadersF fuel input acc = some (hs, rest2) →
    rest2.length < input.length := by
  induction fuel generalizing input acc hs rest2 with
  | zero => intro h; simp [parseHeadersF] at h
  | succ f ih =>
    intro h
    simp only [parseHeadersF] at h
    cases hr : readLine input with
    | none => rw [hr] at h; simp at h
    | some p =>
      obtain ⟨line, rest⟩ := p
      rw [hr] at h
      have hlt : rest.length < input.length := readLine_length hr
      simp only at h
      split at h
      · simp only [Option.some.injEq, Prod.mk.injEq] at h
        rw [← h.2]; exact hlt
      · split at h
        · exact lt_trans (ih h) hlt
        · exact lt_trans (ih h) hlt

theorem parseRequest_rest_length {input : Str} {conn : Conn} {r : Request} :
    parseRequest input conn = Except.ok r → r.Rest.length < input.length := by
  intro h
  simp only [parseRequest] at h
  cases hr : readLine input with
  | none => rw [hr] at h; simp at h
  | some p =>
    obtain ⟨line0, rest⟩ := p
    rw [hr] at h
    have hlt : rest.length < input.length := readLine_length hr
    simp only at h
    split at h
    · simp at h
    · cases hp : parseHeadersF (rest.length + 1) rest [] with
      | none => rw [hp] at h; simp at h
      | some q =>
        obtain ⟨hs, rest2⟩ := q
        rw [hp] at h
        simp only [Except.ok.injEq] at h
        have := parseHeadersF_length hp
        rw [← h]
        exact lt_trans this hlt

/-- `simplehttp.handleConnection` (src/tcprouter/server.go), as the trace
of observable events of its read loop on one connection: parse a request;
on success enqueue it into the job queue and loop; on any error return
(running the deferred `conn.Close()`).  The source's
`if err != io.EOF { }` branch has an empty body, so no `logError` event
is ever emitted. -/
def handleConnection (input : Str) (conn : Conn) : List ConnEvent :=
  match h : parseRequest input conn with
  | Except.error _ => [ConnEvent.closeConn]
  | Except.ok r => ConnEvent.enqueue r :: handleConnection r.Rest conn
termination_by input.length
decreasing_by exact parseRequest_rest_length h

/-- A Go buffered channel `make(chan T, cap)`: a bounded FIFO.  `send`
returns `none` when the buffer is full — the sending goroutine blocks
(the value is retained by the sender, never dropped) — and otherwise the
channel with the value appended.  `recv` returns `none` when the buffer
is empty (the receiver blocks), otherwise the oldest value and the
drained channel. -/
structure Chan (α : Type) where
  cap : Nat
  buf : List α

def Chan.send {α : Type} (c : Chan α) (x : α) : Option (Chan α) :=
  if c.buf.length < c.cap then some { c with buf := c.buf ++ [x] } else none

def Chan.recv {α : Type} (c : Chan α) : Option (α × Chan α) :=
  match c.buf with
  | [] => none
  | x :: rest => some (x, { c with buf := rest })

/-- A sequence of sends by producers; `none` as soon as one producer
blocks on a full channel. -/
def sendAll {α : Type} (c : Chan α) (xs : List α) : Option (Chan α) :=
  xs.foldl (fun oc x => oc.bind (fun c => Chan.send c x)) (some c)

/-- `simplehttp.ResponseWriter` (src/tcprouter/response.go): a handle
bound to exactly one connection. -/
structure ResponseWriter where
  Conn : Conn

/-- `simplehttp.HandlerFunc`. -/
def HandlerFunc : Type := ResponseWriter → Request → Unit

/-- `ResponseWriter.Write` (src/tcprouter/response.go):
`return w.Conn.Write(data)`. -/
def ResponseWriter.Write (w : ResponseWriter) (data : List Nat) :
    Nat × Option Nat :=
  w.Conn.write data

/-- TLS material held in `Server.TLSConfig` (a loaded certificate). -/
structure TLSCfg where
  cert : Str
  key : Str

/-- `simplehttp.Server` (src/tcprouter/server.go).  The `sync.WaitGroup`
field `wg` is pure shutdown bookkeeping and carries no observable state
for the properties below. -/
structure Server where
  Addr : Str
  Handler : HandlerFunc
  workerCount : Int
  jobQueue : Chan Request
  TLSConfig : Option TLSCfg

/-- `simplehttp.NewServer` (src/tcprouter/server.go): store the address,
handler and worker count as given — no validation — and create the job
queue as a buffered channel of capacity 100. -/
def NewServer (addr : Str) (handler : HandlerFunc) (workerCount : Int) :
    Server :=
  { Addr := addr, Handler := handler, workerCount := workerCount,
    jobQueue := { cap := 100, buf := [] }, TLSConfig := none }

/-- Observable startup effects of `Server.Start`. -/
structure StartTrace where
  returned : Option Nat
  workersSpawned : Nat
  enteredAcceptLoop : Bool

/-- `Server.Start` (src/tcprouter/server.go), with the outcome of
`net.Listen` supplied by the environment (`Except.error e` when binding
the socket fails): on a listen error, return that error at once — no
workers spawned, the accept loop never entered, the server value
untouched.  On success, spawn one worker goroutine per non-negative
`workerCount` ordinal (`for i := 0; i < workerCount; i++`) and enter the
accept loop. -/
def Server.Start (s : Server) (listen : Except Nat Unit) :
    StartTrace × Server :=
  match listen with
  | Except.error e =>
      ({ returned := some e, workersSpawned := 0, enteredAcceptLoop := false }, s)
  | Except.ok _ =>
      ({ returned := none, workersSpawned := s.workerCount.toNat,
         enteredAcceptLoop := true }, s)

/-- One header block line joined as sent on the wire: each line followed
by its newline. -/
def joinLines (ls : List Str) : Str := (ls.map (fun l => l ++ ['\n'])).flatten

/-- A full well-formed request as a byte stream: request line, header
lines, empty terminator line, then the untouched rest of the stream. -/
def buildInput (reqLine : Str) (hls : List Str) (rest : Str) : Str :=
  reqLine ++ '\n' :: (joinLines hls ++ '\n' :: rest)

/-- The effect of one header line on the header map, exactly as in the
`parseRequest` loop: trim, split on the first colon (no colon: skip),
assign trimmed name to trimmed value. -/
def headerStep (acc : HeaderMap) (l : Str) : HeaderMap :=
  match goSplitFirst ':' (goTrimSpace l) with
  | none => acc
  | some (n, v) => mapInsert acc (goTrimSpace n) (goTrimSpace v)

/-- The name/value entry a header line denotes, if it has a colon. -/
def lineEntry (l : Str) : Option (Str × Str) :=
  (goSplitFirst ':' (goTrimSpace l)).map
    (fun p => (goTrimSpace p.1, goTrimSpace p.2))

/-- Modelled from the spec's words, for comparison with the parser: the
value of the LAST header line whose (trimmed) name is `n` — "duplicate
names resolve to last value". -/
def specLastHeaderValue (n : Str) (hls : List Str) : Option Str :=
  ((hls.filterMap lineEntry).reverse.find? (fun p => p.1 == n)).map
    (fun p => p.2)

/-- A concrete connection, used to instantiate theorems. -/
def conn0 : Conn := { id := 0, write := fun _ => (0, none) }

/-- A concrete request, used to instantiate theorems. -/
def req0 : Request :=
  { Method := [], URI := [], Headers := [], Conn := conn0, Rest := [] }

theorem readLine_append {l : Str} (rest : Str) (h : '\n' ∉ l) :
    readLine (l ++ '\n' :: rest) = some (l ++ ['\n'], rest) := by
  induction l with
  | nil => simp [readLine]
  | cons c cs ih =>
    have hc : ¬ (c = '\n') := by
      intro hc; exact h (by simp [hc])
    have h' : '\n' ∉ cs := fun hm => h (List.mem_cons_of_mem _ hm)
    simp [readLine, hc, ih h']

theorem goTrimRight_append_space {l : Str} {c : Char} (h : goIsSpace c = true) :
    goTrimRight (l ++ [c]) = goTrimRight l := by
  simp [goTrimRight, List.reverse_append, List.dropWhile, h]

theorem goTrimSpace_append_newline (l : Str) :
    goTrimSpace (l ++ ['\n']) = goTrimSpace l := by
  unfold goTrimSpace
  rw [goTrimRight_append_space (by decide)]

theorem mapLookup_insert_self (m : HeaderMap) (k v : Str) :
    mapLookup (mapInsert m k v) k = some v := by
  simp [mapLookup, mapInsert, List.find?_cons]

theorem find?_filter_ne {m : HeaderMap} {k n : Str} (hkn : (k == n) = false) :
    (m.filter (fun p => !(p.1 == k))).find? (fun p => p.1 == n) =
    m.find? (fun p => p.1 == n) := by
  induction m with
  | nil => rfl
  | cons p m ih =>
    by_cases hp : (p.1 == k) = true
    · have hpn : (p.1 == n) = false := by
        have hpk : p.1 = k := eq_of_beq hp
        rw [hpk]; exact hkn
      simp [List.filter_cons, hp, List.find?_cons, hpn, ih]
    · by_cases hn : (p.1 == n) = true
      · simp [List.filter_cons, hp, List.find?_cons, hn]
      · simp only [Bool.not_eq_true] at hp hn
        simp [List.filter_cons, hp, List.find?_cons, hn, ih]

theorem mapLookup_insert_ne {m : HeaderMap} {k v n : Str}
    (h : (k == n) = false) :
    mapLookup (mapInsert m k v) n = mapLookup m n := by
  simp [mapLookup, mapInsert, List.find?_cons, h, find?_filter_ne h]

theorem find?_append_or {α : Type} (p : α → Bool) (l₁ l₂ : List α) :
    (l₁ ++ l₂).find? p =
      match l₁.find? p with
      | some x => some x
      | none => l₂.find? p := by
  induction l₁ with
  | nil => simp
  | cons a l ih =>
    by_cases ha : p a = true
    · simp [List.find?_cons, ha]
    · simp only [Bool.not_eq_true] at ha
      simp [List.find?_cons, ha, ih]

theorem mapLookup_foldl_headerStep (hls : List Str) (acc : HeaderMap)
    (n : Str) :
    mapLookup (hls.foldl headerStep acc) n =
      match (hls.filterMap lineEntry).reverse.find? (fun p => p.1 == n) with
      | some p => some p.2
      | none => mapLookup acc n := by
  induction hls generalizing acc with
  | nil => simp
  | cons l ls ih =>
    rw [List.foldl_cons, ih (headerStep acc l)]
    cases he : goSplitFirst ':' (goTrimSpace l) with
    | none =>
      have h1 : headerStep acc l = acc := by simp [headerStep, he]
      have h2 : lineEntry l = none := by simp [lineEntry, he]
      simp [h1, h2, List.filterMap_cons]
    | some kv =>
      obtain ⟨k0, v0⟩ := kv
      have h1 : headerStep acc l =
          mapInsert acc (goTrimSpace k0) (goTrimSpace v0) := by
        simp [headerStep, he]
      have h2 : lineEntry l = some (goTrimSpace k0, goTrimSpace v0) := by
        simp [lineEntry, he]
      rw [h1]
      rw [List.filterMap_cons]
      rw [h2]
      rw [List.reverse_cons, find?_append_or]
      cases hf : (ls.filterMap lineEntry).reverse.find? (fun p => p.1 == n) with
      | some q => simp [hf]
      | none =>
        simp only [hf]
        by_cases hk : ((goTrimSpace k0) == n) = true
        · have hkn : goTrimSpace k0 = n := eq_of_beq hk
          subst hkn
          simp [List.find?_cons, mapLookup_insert_self]
        · simp only [Bool.not_eq_true] at hk
          simp [List.find?_cons, hk, mapLookup_insert_ne hk]

theorem joinLines_length (hls : List Str) :
    hls.length ≤ (joinLines hls).length := by
  induction hls with
  | nil => simp [joinLines]
  | cons l ls ih =>
    simp only [joinLines, List.map_cons, List.flatten_cons, List.length_append,
      List.length_cons] at *
    omega

theorem parseHeadersF_join (hls : List Str) :
    ∀ (fuel : Nat) (acc : HeaderMap) (rest : Str),
    (∀ l ∈ hls, '\n' ∉ l ∧ goTrimSpace l ≠ []) →
    hls.length < fuel →
    parseHeadersF fuel (joinLines hls ++ '\n' :: rest) acc =
      some (hls.foldl headerStep acc, rest) := by
  induction hls with
  | nil =>
    intro fuel acc rest _ hf
    cases fuel with
    | zero => omega
    | succ f => simp [joinLines, parseHeadersF, readLine, goTrimSpace,
        goTrimLeft, goTrimRight, List.dropWhile, goIsSpace]
  | cons l ls ih =>
    intro fuel acc rest hwf hf
    cases fuel with
    | zero => omega
    | succ f =>
      obtain ⟨hnl, hne⟩ := hwf l (List.mem_cons_self l ls)
      have hwf' : ∀ x ∈ ls, '\n' ∉ x ∧ goTrimSpace x ≠ [] :=
        fun x hx => hwf x (List.mem_cons_of_mem l hx)
      have hjoin : joinLines (l :: ls) ++ '\n' :: rest
          = l ++ '\n' :: (joinLines ls ++ '\n' :: rest) := by
        simp [joinLines, List.append_assoc]
      rw [hjoin]
      simp only [parseHeadersF, readLine_append _ hnl,
        goTrimSpace_append_newline, List.foldl_cons]
      rw [if_neg hne]
      have hf' : ls.length < f := by
        simp only [List.length_cons] at hf; omega
      cases he : goSplitFirst ':' (goTrimSpace l) with
      | none =>
        have hs : headerStep acc l = acc := by simp [headerStep, he]
        rw [hs]
        exact ih f acc rest hwf' hf'
      | some kv =>
        obtain ⟨k0, v0⟩ := kv
        have hs : headerStep acc l =
            mapInsert acc (goTrimSpace k0) (goTrimSpace v0) := by
          simp [headerStep, he]
        rw [hs]
        exact ih f _ rest hwf' hf'

theorem parseRequest_build (reqLine : Str) (hls : List Str) (rest : Str)
    (conn : Conn)
    (hnl : '\n' ∉ reqLine)
    (hwf : ∀ l ∈ hls, '\n' ∉ l ∧ goTrimSpace l ≠ [])
    (htok : 3 ≤ (goSplit ' ' (goTrimSpace reqLine)).length) :
    parseRequest (buildInput reqLine hls rest) conn =
      Except.ok { Method := (goSplit ' ' (goTrimSpace reqLine)).getD 0 [],
                  URI := (goSplit ' ' (goTrimSpace reqLine)).getD 1 [],
                  Headers := hls.foldl headerStep [],
                  Conn := conn,
                  Rest := rest } := by
  have hfuel : hls.length < (joinLines hls ++ '\n' :: rest).length + 1 := by
    have := joinLines_length hls
    simp only [List.length_append, List.length_cons]
    omega
  simp only [parseRequest, buildInput, readLine_append _ hnl,
    goTrimSpace_append_newline]
  rw [if_neg (by omega)]
  rw [parseHeadersF_join hls _ [] rest hwf hfuel]

theorem parseRequest_malformed (line rest : Str) (conn : Conn)
    (hnl : '\n' ∉ line)
    (htok : (goSplit ' ' (goTrimSpace line)).length < 3) :
    parseRequest (line ++ '\n' :: rest) conn =
      Except.error ParseError.malformedRequestLine := by
  simp only [parseRequest, readLine_append _ hnl, goTrimSpace_append_newline]
  rw [if_pos htok]

theorem handleConnection_of_error {input : Str} {conn : Conn} {e : ParseError}
    (h : parseRequest input conn = Except.error e) :
    handleConnection input conn = [ConnEvent.closeConn] := by
  rw [handleConnection]
  split
  · rfl
  · rename_i r hr
    rw [h] at hr
    cases hr

theorem sendAll_of_fits {α : Type} (xs : List α) :
    ∀ (c : Chan α), c.buf.length + xs.length ≤ c.cap →
    sendAll c xs = some { cap := c.cap, buf := c.buf ++ xs } := by
  induction xs with
  | nil => intro c _; simp [sendAll]
  | cons x xs ih =>
    intro c hle
    simp only [List.length_cons] at hle
    have hx : Chan.send c x = some { cap := c.cap, buf := c.buf ++ [x] } := by
      simp only [Chan.send]
      rw [if_pos (by omega)]
    have : sendAll c (x :: xs) =
        sendAll { cap := c.cap, buf := c.buf ++ [x] } xs := by
      simp [sendAll, hx]
    rw [this, ih _ (by simp; omega)]
    simp [List.append_assoc]

/-- C1: for every well-formed request — a request line (no embedded
newline) whose trimmed form splits on single spaces into at least 3
tokens, followed by header lines and an empty terminator line —
`parseRequest` returns a `Request` whose `Method` and `URI` equal the
first and second tokens of the request line, and whose `Headers` map
sends every header name to the trimmed value of its last occurrence
(names and values trimmed of surrounding white space). -/
theorem parseRequest_wellFormed (reqLine : Str) (hls : List Str)
    (rest : Str) (conn : Conn)
    (hnl : '\n' ∉ reqLine)
    (hwf : ∀ l ∈ hls, '\n' ∉ l ∧ goTrimSpace l ≠ [])
    (htok : 3 ≤ (goSplit ' ' (goTrimSpace reqLine)).length) :
    ∃ r : Request,
      parseRequest (buildInput reqLine hls rest) conn = Except.ok r ∧
      r.Method = (goSplit ' ' (goTrimSpace reqLine)).getD 0 [] ∧
      r.URI = (goSplit ' ' (goTrimSpace reqLine)).getD 1 [] ∧
      ∀ n : Str, mapLookup r.Headers n = specLastHeaderValue n hls := by
  refine ⟨_, parseRequest_build reqLine hls rest conn hnl hwf htok,
    rfl, rfl, ?_⟩
  intro n
  rw [mapLookup_foldl_headerStep]
  cases hf : (hls.filterMap lineEntry).reverse.find? (fun p => p.1 == n) with
  | none => simp [hf, specLastHeaderValue, mapLookup]
  | some q => simp [hf, specLastHeaderValue]

/-- C1 witness: a concrete well-formed request with a duplicated header
name; the map holds the trimmed value of the last occurrence. -/
theorem parseRequest_wellFormed_inst :
    ∃ r : Request,
      parseRequest
        (buildInput ("GET /hello HTTP/1.1".toList)
          ["Host: example".toList, "Dup: a".toList, "Dup:  b ".toList]
          ("XYZ".toList)) conn0 = Except.ok r ∧
      r.Method = (goSplit ' ' (goTrimSpace ("GET /hello HTTP/1.1".toList))).getD 0 [] ∧
      r.URI = (goSplit ' ' (goTrimSpace ("GET /hello HTTP/1.1".toList))).getD 1 [] ∧
      ∀ n : Str, mapLookup r.Headers n =
        specLastHeaderValue n
          ["Host: example".toList, "Dup: a".toList, "Dup:  b ".toList] :=
  parseRequest_wellFormed _ _ _ conn0 (by decide) (by decide) (by decide)

/-- C2: an input whose first line (after trimming) splits on single
spaces into fewer than 3 tokens makes `parseRequest` fail with the
malformed-request-line error, and the connection reader then closes the
connection and terminates without enqueuing anything. -/
theorem parseRequest_malformedLine_closes (line rest : Str) (conn : Conn)
    (hnl : '\n' ∉ line)
    (htok : (goSplit ' ' (goTrimSpace line)).length < 3) :
    parseRequest (line ++ '\n' :: rest) conn =
      Except.error ParseError.malformedRequestLine ∧
    handleConnection (line ++ '\n' :: rest) conn = [ConnEvent.closeConn] := by
  have h := parseRequest_malformed line rest conn hnl htok
  exact ⟨h, handleConnection_of_error h⟩

/-- C2 witness: the spec's own test vector `"BAD\r\n\r\n"`. -/
theorem parseRequest_malformedLine_closes_inst :
    parseRequest (("BAD\r".toList) ++ '\n' :: ("\r\n".toList)) conn0 =
      Except.error ParseError.malformedRequestLine ∧
    handleConnection (("BAD\r".toList) ++ '\n' :: ("\r\n".toList)) conn0 =
      [ConnEvent.closeConn] :=
  parseRequest_malformedLine_closes _ _ conn0 (by decide) (by decide)

/-- C3: the job queue created by `NewServer` has capacity 100 and blocks
rather than drops: 100 requests are all enqueued without any producer
blocking, the 101st enqueue blocks (`send` = `none`, the request kept by
its producer), and as soon as the worker's handler returns and the queue
drains by one (`recv`), the blocked enqueue succeeds with the request
appended. -/
theorem jobQueue_backpressure (addr : Str) (handler : HandlerFunc)
    (wc : Int) (xs : List Request) (y : Request)
    (hlen : xs.length = 100) :
    sendAll ((NewServer addr handler wc).jobQueue) xs =
      some { cap := 100, buf := xs } ∧
    Chan.send { cap := 100, buf := xs } y = none ∧
    ∀ (r : Request) (c' : Chan Request),
      Chan.recv { cap := 100, buf := xs } = some (r, c') →
      Chan.send c' y = some { cap := 100, buf := c'.buf ++ [y] } := by
  refine ⟨?_, ?_, ?_⟩
  · have h := sendAll_of_fits xs
      { cap := 100, buf := ([] : List Request) } (by simp [hlen])
    simpa [NewServer] using h
  · simp [Chan.send, hlen]
  · intro r c' hrecv
    cases xs with
    | nil => simp at hlen
    | cons a t =>
      simp only [Chan.recv, Option.some.injEq, Prod.mk.injEq] at hrecv
      obtain ⟨h1, h2⟩ := hrecv
      subst h2
      simp only [List.length_cons] at hlen
      simp only [Chan.send]
      rw [if_pos (by omega)]

/-- C3 witness: 100 concrete requests fill the queue, the 101st blocks,
one dequeue unblocks it. -/
theorem jobQueue_backpressure_inst :
    sendAll ((NewServer [] (fun _ _ => ()) 1).jobQueue)
        (List.replicate 100 req0) =
      some { cap := 100, buf := List.replicate 100 req0 } ∧
    Chan.send { cap := 100, buf := List.replicate 100 req0 } req0 = none ∧
    ∀ (r : Request) (c' : Chan Request),
      Chan.recv { cap := 100, buf := List.replicate 100 req0 } =
        some (r, c') →
      Chan.send c' req0 = some { cap := 100, buf := c'.buf ++ [req0] } :=
  jobQueue_backpressure [] (fun _ _ => ()) 1 (List.replicate 100 req0) req0
    (by simp)

/-- C4: a header line containing no colon is skipped without failing the
parse; the request parses exactly as if that line were absent, so all
other header lines still reach the `Headers` map. -/
theorem parseRequest_skips_colonless_header (reqLine : Str)
    (pre post : List Str) (l : Str) (rest : Str) (conn : Conn)
    (hnl : '\n' ∉ reqLine)
    (htok : 3 ≤ (goSplit ' ' (goTrimSpace reqLine)).length)
    (hwfpre : ∀ x ∈ pre, '\n' ∉ x ∧ goTrimSpace x ≠ [])
    (hwfpost : ∀ x ∈ post, '\n' ∉ x ∧ goTrimSpace x ≠ [])
    (hlnl : '\n' ∉ l) (hlne : goTrimSpace l ≠ [])
    (hnc : goSplitFirst ':' (goTrimSpace l) = none) :
    parseRequest (buildInput reqLine (pre ++ l :: post) rest) conn =
      parseRequest (buildInput reqLine (pre ++ post) rest) conn ∧
    ∃ r, parseRequest (buildInput reqLine (pre ++ post) rest) conn =
      Except.ok r := by
  have hwf1 : ∀ x ∈ pre ++ l :: post, '\n' ∉ x ∧ goTrimSpace x ≠ [] := by
    intro x hx
    rcases List.mem_append.mp hx with h1 | h2
    · exact hwfpre x h1
    · rcases List.mem_cons.mp h2 with rfl | h3
      · exact ⟨hlnl, hlne⟩
      · exact hwfpost x h3
  have hwf2 : ∀ x ∈ pre ++ post, '\n' ∉ x ∧ goTrimSpace x ≠ [] := by
    intro x hx
    rcases List.mem_append.mp hx with h1 | h2
    · exact hwfpre x h1
    · exact hwfpost x h2
  have hfold : (pre ++ l :: post).foldl headerStep ([] : HeaderMap) =
      (pre ++ post).foldl headerStep [] := by
    rw [List.foldl_append, List.foldl_append, List.foldl_cons]
    have : headerStep (pre.foldl headerStep []) l = pre.foldl headerStep [] := by
      simp [headerStep, hnc]
    rw [this]
  rw [parseRequest_build reqLine _ rest conn hnl hwf1 htok,
      parseRequest_build reqLine _ rest conn hnl hwf2 htok]
  exact ⟨by rw [hfold], _, rfl⟩

/-- C4 witness: `NoColonHere` sits between two valid headers and is
dropped; the parse equals the parse without it and succeeds. -/
theorem parseRequest_skips_colonless_header_inst :
    parseRequest
      (buildInput ("GET / HTTP/1.1".toList)
        (["A: 1".toList] ++ ("NoColonHere".toList) :: ["B: 2".toList])
        ("Z".toList)) conn0 =
      parseRequest
        (buildInput ("GET / HTTP/1.1".toList)
          (["A: 1".toList] ++ ["B: 2".toList]) ("Z".toList)) conn0 ∧
    ∃ r, parseRequest
        (buildInput ("GET / HTTP/1.1".toList)
          (["A: 1".toList] ++ ["B: 2".toList]) ("Z".toList)) conn0 =
      Except.ok r :=
  parseRequest_skips_colonless_header _ _ _ _ _ conn0 (by decide) (by decide)
    (by decide) (by decide) (by decide) (by decide) (by decide)

/-- C5: on a well-formed request, `parseRequest` consumes exactly the
request line and the header lines up to and including the empty
terminator line; the `Request`'s reader position (`Rest`) is exactly the
bytes after the terminator, untouched for the next parse or for the
handler. -/
theorem parseRequest_leaves_rest (reqLine : Str) (hls : List Str)
    (rest : Str) (conn : Conn)
    (hnl : '\n' ∉ reqLine)
    (hwf : ∀ l ∈ hls, '\n' ∉ l ∧ goTrimSpace l ≠ [])
    (htok : 3 ≤ (goSplit ' ' (goTrimSpace reqLine)).length) :
    ∃ r : Request,
      parseRequest (buildInput reqLine hls rest) conn = Except.ok r ∧
      r.Rest = rest :=
  ⟨_, parseRequest_build reqLine hls rest conn hnl hwf htok, rfl⟩

/-- C5 witness: the body bytes after the terminator are left unread. -/
theorem parseRequest_leaves_rest_inst :
    ∃ r : Request,
      parseRequest
        (buildInput ("POST /u HTTP/1.1".toList) ["H: v".toList]
          ("BODYDATA".toList)) conn0 = Except.ok r ∧
      r.Rest = "BODYDATA".toList :=
  parseRequest_leaves_rest _ _ _ conn0 (by decide) (by decide) (by decide)

/-- C6 counterexample: the claim "the error is logged if and only if it
is not a clean end-of-stream" is false on the code.  On `"BAD\n\n"` the
parse error is `malformedRequestLine` — not the end-of-stream error —
yet the read loop emits no log event at all: the source's
`if err != io.EOF` branch has an empty body. -/
theorem handleConnection_never_logs_cex :
    parseRequest ("BAD\n\n".toList) conn0 =
      Except.error ParseError.malformedRequestLine ∧
    ParseError.malformedRequestLine ≠ ParseError.streamClosed ∧
    handleConnection ("BAD\n\n".toList) conn0 = [ConnEvent.closeConn] ∧
    ConnEvent.logError ParseError.malformedRequestLine ∉
      handleConnection ("BAD\n\n".toList) conn0 := by
  refine ⟨by rfl, by decide, handleConnection_of_error (by rfl), ?_⟩
  rw [handleConnection_of_error (show parseRequest ("BAD\n\n".toList) conn0 =
    Except.error ParseError.malformedRequestLine from rfl)]
  simp

/-- C6 (amended): when `parseRequest` returns any error, the error is
fatal to that connection only — the connection is closed and the read
loop terminates with no retry and nothing enqueued — and the error is
never logged (the code distinguishes non-EOF errors, but the log branch
is empty). -/
theorem handleConnection_error_fatal_unlogged (input : Str) (conn : Conn)
    (e : ParseError) (h : parseRequest input conn = Except.error e) :
    handleConnection input conn = [ConnEvent.closeConn] ∧
    (∀ e2 : ParseError,
      ConnEvent.logError e2 ∉ handleConnection input conn) ∧
    (∀ r : Request, ConnEvent.enqueue r ∉ handleConnection input conn) := by
  have hc := handleConnection_of_error h
  refine ⟨hc, ?_, ?_⟩ <;> intro x <;> rw [hc] <;> simp

/-- C6 witness: a stream that ends before a full request line (a clean
end-of-stream) closes the connection with nothing enqueued and nothing
logged. -/
theorem handleConnection_error_fatal_unlogged_inst :
    handleConnection ("abc".toList) conn0 = [ConnEvent.closeConn] ∧
    (∀ e2 : ParseError,
      ConnEvent.logError e2 ∉ handleConnection ("abc".toList) conn0) ∧
    (∀ r : Request,
      ConnEvent.enqueue r ∉ handleConnection ("abc".toList) conn0) :=
  handleConnection_error_fatal_unlogged _ conn0 ParseError.streamClosed
    (by rfl)

/-- C7: if binding the listening socket fails, `Start` returns that
error immediately: no worker goroutines are spawned, the accept loop is
never entered, and the server value — its job queue and TLS
configuration included — is unchanged. -/
theorem start_listen_error_aborts (s : Server) (e : Nat) :
    Server.Start s (Except.error e) =
      ({ returned := some e, workersSpawned := 0,
         enteredAcceptLoop := false }, s) ∧
    (Server.Start s (Except.error e)).2.jobQueue = s.jobQueue ∧
    (Server.Start s (Except.error e)).2.TLSConfig = s.TLSConfig :=
  ⟨rfl, rfl, rfl⟩

/-- C8: `ResponseWriter.Write` passes the byte sequence unmodified to
the bound connection's write operation and returns exactly the count and
error that the connection's write returns — no buffering, no header
computation. -/
theorem responseWriter_write_passthrough (w : ResponseWriter)
    (data : List Nat) (n : Nat) (e : Option Nat)
    (h : w.Conn.write data = (n, e)) :
    ResponseWriter.Write w data = (n, e) := h

/-- C8 witness: a concrete connection whose write reports 0 bytes
written; `Write` returns exactly that. -/
theorem responseWriter_write_passthrough_inst :
    ResponseWriter.Write { Conn := conn0 } [1, 2, 3] = (0, none) :=
  responseWriter_write_passthrough _ _ _ _ (by rfl)

/-- C9: `NewServer` performs no validation: for every worker count —
zero and negative included — it returns a `Server` (it is a total
function, there is no error path), with a job queue of fixed capacity
100, initially empty, and the given fields stored as-is. -/
theorem newServer_no_validation (addr : Str) (handler : HandlerFunc)
    (wc : Int) :
    (NewServer addr handler wc).jobQueue.cap = 100 ∧
    (NewServer addr handler wc).jobQueue.buf = [] ∧
    (NewServer addr handler wc).workerCount = wc ∧
    (NewServer addr handler wc).Addr = addr ∧
    (NewServer addr handler wc).TLSConfig = none :=
  ⟨rfl, rfl, rfl, rfl, rfl⟩

/-- C10: the request line is split on every single space, so consecutive
spaces produce empty tokens that count toward the 3-token minimum:
`"GET  /x HTTP/1.1"` (two spaces after the method) is accepted, with
`URI` equal to the empty string and the tokens beyond the second
discarded rather than rejected. -/
theorem parseRequest_doubleSpace_emptyURI (conn : Conn) (rest : Str) :
    parseRequest (("GET  /x HTTP/1.1".toList) ++ '\n' :: '\n' :: rest)
        conn =
      Except.ok { Method := "GET".toList, URI := [], Headers := [],
                  Conn := conn, Rest := rest } := by
  rfl
